import Mathlib

/-!
Shallow embedding of the pyQCD numerical kernel (Wilson-Dirac operator
assembly, smearing-operator assembly, propagator orchestration, Krylov
solvers, and the expression-template array arithmetic) together with
theorems checking the natural-language specification against it.

Machine arithmetic: the C++ code computes with complex<double>.  We embed
scalars as complex numbers with rational components (`CQ`), i.e. exact
arithmetic; division by zero follows the Lean convention x / 0 = 0.
Square roots appear in the C++ only inside monotone comparisons
(sqrt a < t  <->  a < t^2 for t >= 0) or as reported norms, so the solver
embeddings carry squared norms and squared tolerances throughout; where a
genuine sqrt value is needed (the Arnoldi normalisation) the embedding is
parametrised by the sqrt function.
-/

/-- Complex numbers with rational components, the exact-arithmetic stand-in
for C++ complex<double>. -/
structure CQ where
  re : ℚ
  im : ℚ
deriving DecidableEq

instance : Zero CQ := ⟨⟨0, 0⟩⟩

instance : One CQ := ⟨⟨1, 0⟩⟩

instance : Add CQ := ⟨fun a b => ⟨a.re + b.re, a.im + b.im⟩⟩

instance : Neg CQ := ⟨fun a => ⟨-a.re, -a.im⟩⟩

instance : Sub CQ := ⟨fun a b => ⟨a.re - b.re, a.im - b.im⟩⟩

instance : Mul CQ := ⟨fun a b => ⟨a.re * b.re - a.im * b.im, a.re * b.im + a.im * b.re⟩⟩

/-- Complex conjugate, modelling std::conj / Eigen .adjoint entries. -/
def CQ.conj (a : CQ) : CQ := ⟨a.re, -a.im⟩

/-- Squared modulus |z|^2, a rational. -/
def CQ.normSq (a : CQ) : ℚ := a.re * a.re + a.im * a.im

/-- Embeds a real (double) scalar into the complex scalars. -/
def CQ.ofRat (q : ℚ) : CQ := ⟨q, 0⟩

/-- Complex division z / w = z * conj w / |w|^2 (0 when w = 0, by the
rational division-by-zero convention). -/
instance : Div CQ :=
  ⟨fun a b => ⟨(a.re * b.re + a.im * b.im) / b.normSq,
               (a.im * b.re - a.re * b.im) / b.normSq⟩⟩

instance : AddCommMonoid CQ where
  add_assoc a b c := congrArg₂ CQ.mk (add_assoc _ _ _) (add_assoc _ _ _)
  zero_add a := congrArg₂ CQ.mk (zero_add _) (zero_add _)
  add_zero a := congrArg₂ CQ.mk (add_zero _) (add_zero _)
  add_comm a b := congrArg₂ CQ.mk (add_comm _ _) (add_comm _ _)
  nsmul := nsmulRec

/-- Eigen's x.dot(y) for complex vectors: sum of conj(x_i) * y_i. -/
def cdot (x y : List CQ) : CQ := (List.zipWith (fun a b => CQ.conj a * b) x y).sum

/-- Eigen's v.squaredNorm(): sum of |v_i|^2, a real (rational) value. -/
def vecNormSq (x : List CQ) : ℚ := (x.map CQ.normSq).sum

/-- Componentwise vector addition. -/
def vadd (x y : List CQ) : List CQ := List.zipWith (· + ·) x y

/-- Componentwise vector subtraction. -/
def vsub (x y : List CQ) : List CQ := List.zipWith (· - ·) x y

/-- Scalar times vector. -/
def vsmul (z : CQ) (x : List CQ) : List CQ := x.map (fun a => z * a)

/-- VectorXcd::Zero(n). -/
def zeroVec (n : ℕ) : List CQ := List.replicate n 0

/-! ## Small dense matrices (Eigen Matrix3cd / Matrix4cd) -/

/-- A 4x4 complex matrix (Matrix4cd), indexed (row, column). -/
abbrev Mat4 : Type := Fin 4 → Fin 4 → CQ

/-- A 3x3 complex matrix (Matrix3cd). -/
abbrev Mat3 : Type := Fin 3 → Fin 3 → CQ

/-- Matrix4cd::Identity(). -/
def mat4Id : Mat4 := fun r c => if r = c then 1 else 0

/-- Matrix3cd::Identity(). -/
def mat3Id : Mat3 := fun r c => if r = c then 1 else 0

/-- Entrywise sum of 4x4 matrices. -/
def mat4Add (a b : Mat4) : Mat4 := fun r c => a r c + b r c

/-- Entrywise difference of 4x4 matrices. -/
def mat4Sub (a b : Mat4) : Mat4 := fun r c => a r c - b r c

/-- Conjugate transpose of a 3x3 matrix (Eigen's .adjoint()). -/
def adjoint3 (a : Mat3) : Mat3 := fun r c => CQ.conj (a c r)

/-! ## Sparse matrices over the 12 * nSites degrees of freedom -/

/-- A sparse-matrix triplet (row, column, value), Eigen's Triplet (Tlet). -/
abbrev Triplet : Type := ℕ × ℕ × CQ

/-- Concatenation of the lists produced by f over l, in order; models a
nested loop appending to a shared list. -/
def joinMap {α β : Type} (f : α → List β) (l : List α) : List β := (l.map f).flatten

/-- A dense N x N complex matrix used as the semantics of
SparseMatrix<complex<double>> of size N x N. -/
abbrev cMat (N : ℕ) : Type := Fin N → Fin N → CQ

/-- The all-zero sparse matrix (out.setZero()). -/
def matZeroN (N : ℕ) : cMat N := fun _ _ => 0

/-- The identity matrix, as assembled from unit diagonal triplets. -/
def matOneN (N : ℕ) : cMat N := fun r c => if r = c then 1 else 0

/-- Entrywise matrix sum (sparse operator+=). -/
def matAddN (N : ℕ) (a b : cMat N) : cMat N := fun r c => a r c + b r c

/-- Real scalar times complex matrix (pow(smearingParameter, i) * m). -/
def matSmulRat (N : ℕ) (q : ℚ) (a : cMat N) : cMat N := fun r c => CQ.ofRat q * a r c

/-- Sparse matrix-matrix product. -/
def matMulN (N : ℕ) (a b : cMat N) : cMat N := fun r c => ∑ k, a r k * b k c

/-- Conjugate transpose (the adjoint assembled triplet-by-triplet in
computePropagator: Dadj(c, r) = conj D(r, c)). -/
def matAdjointN (N : ℕ) (a : cMat N) : cMat N := fun r c => CQ.conj (a c r)

/-- Sparse matrix-vector product. -/
def matVecN (N : ℕ) (a : cMat N) (x : Fin N → CQ) : Fin N → CQ :=
  fun r => ∑ k, a r k * x k

/-- Eigen's setFromTriplets: the matrix entry (r, c) is the sum of the
values of all triplets carrying that (row, column) pair. -/
def matFromTriplets (N : ℕ) (ts : List Triplet) : cMat N :=
  fun r c => ((ts.filter (fun t => t.1 == r.val && t.2.1 == c.val)).map (fun t => t.2.2)).sum

/-! ## The lattice model consumed by the operator builders

The geometry services (pyQCD::getLinkIndices, the precomputed
propagatorColumns_ neighbour table, and getLink) are external
collaborators of the code under verification (spec section 6), so the
lattice is modelled as the data those services provide:

* `nSites` - number of lattice sites (nLinks_ = 4 * nSites);
* `cols i j` - propagatorColumns_[i][j], the (columnIndex, dimension
  code) pair of the j-th of the 8 nearest neighbours of site i.  Codes
  0-3 are backward directions, 4-7 forward (code > 3 tests forward);
* `link i d` - the 3x3 link matrix getLink returns at site i, direction
  d (the code reaches it through the site's coordinate vector rowLink);
* `backSite i d` - the site whose coordinates are rowLink with
  coordinate d decremented, i.e. the site getLink is called at for a
  backward neighbour. -/
structure DiracLattice where
  nSites : ℕ
  cols : ℕ → Fin 8 → ℕ × ℕ
  link : ℕ → ℕ → Mat3
  backSite : ℕ → ℕ → ℕ

/-- Tensor product of a 4x4 spin block and a 3x3 colour block emitted as
sparse-matrix triplets: the four nested loops over k, m, l, n of
Lattice::computeDiracMatrix and Lattice::computeSmearingOperator, with
entries of value exactly zero omitted.  The entry for (k, l, m, n) has
value `val k l m n`, row `rowBase + 3*k + m` and column
`colBase + 3*l + n`. -/
def tensorTriplets (rowBase colBase : ℕ) (val : Fin 4 → Fin 4 → Fin 3 → Fin 3 → CQ) :
    List Triplet :=
  joinMap (fun k : Fin 4 =>
    joinMap (fun m : Fin 3 =>
      joinMap (fun l : Fin 4 =>
        joinMap (fun n : Fin 3 =>
          if val k l m n ≠ 0 then
            [(rowBase + 3 * k.val + m.val, colBase + 3 * l.val + n.val, val k l m n)]
          else [])
          (List.finRange 3))
        (List.finRange 4))
      (List.finRange 3))
    (List.finRange 4)

/-- The triplet list assembled by Lattice::computeDiracMatrix (the sparse
Wilson-Dirac matrix is out.setFromTriplets of this list).  Diagonal
entries mass + 4/spacing at every one of the 3 * nLinks_ = 12 * nSites
degrees of freedom, then for every site the eight neighbour
contributions: forward neighbours (dimension code > 3) use the link at
the site itself and spin block I + gamma_d, backward neighbours the
adjoint of the link at the decremented-coordinate site and spin block
I - gamma_d; each tensor-product entry is scaled by -0.5 / spacing.  The
gamma matrices (pyQCD::gammas, fixed physics constants defined in the
external utils module) are a parameter `gam`. -/
def computeDiracTriplets (L : DiracLattice) (gam : ℕ → Mat4) (mass spacing : ℚ) :
    List Triplet :=
  (List.range (12 * L.nSites)).map (fun i => ((i, i, CQ.ofRat (mass + 4 / spacing)) : Triplet))
  ++ joinMap (fun i =>
      joinMap (fun j : Fin 8 =>
        let columnIndex := (L.cols i j).1
        let dimen := (L.cols i j).2
        let colour : Mat3 :=
          if dimen > 3 then L.link i (dimen - 4)
          else adjoint3 (L.link (L.backSite i dimen) dimen)
        let spin : Mat4 :=
          if dimen > 3 then mat4Add mat4Id (gam (dimen - 4))
          else mat4Sub mat4Id (gam dimen)
        tensorTriplets (12 * i) (3 * columnIndex)
          (fun k l m n => CQ.ofRat (-0.5 / spacing) * spin k l * colour m n))
        (List.finRange 8))
      (List.range L.nSites)

/-- The claim's description of the Wilson-Dirac triplet list, written from
the specification's words: a diagonal entry mass + 4/spacing for every
one of the 12 * nSites degrees of freedom and, for each site and each of
its 8 neighbour links, entries -(1/(2*spacing)) * spin(k,l) * colour(m,n)
at row 12*site + 3*k + m and column 12*neighbour + 3*l + n, the spin
block being I + gamma_d for a forward neighbour (colour block the link at
the site) and I - gamma_d for a backward one (colour block the adjoint of
the link at the neighbour site), zero-valued entries omitted.  The
neighbour site `nbr i j`, direction `dir i j` and orientation `fwd i j`
describe the same 8 neighbour links the code reads from its table. -/
def diracTripletsClaim (nSites : ℕ) (link : ℕ → ℕ → Mat3) (gam : ℕ → Mat4)
    (mass spacing : ℚ) (nbr : ℕ → Fin 8 → ℕ) (dir : ℕ → Fin 8 → ℕ)
    (fwd : ℕ → Fin 8 → Bool) : List Triplet :=
  (List.range (12 * nSites)).map (fun i => ((i, i, CQ.ofRat (mass + 4 / spacing)) : Triplet))
  ++ joinMap (fun i =>
      joinMap (fun j : Fin 8 =>
        let d := dir i j
        let colour : Mat3 :=
          if fwd i j then link i d else adjoint3 (link (nbr i j) d)
        let spin : Mat4 :=
          if fwd i j then mat4Add mat4Id (gam d) else mat4Sub mat4Id (gam d)
        tensorTriplets (12 * i) (12 * nbr i j)
          (fun k l m n => CQ.ofRat (-(1 / (2 * spacing))) * spin k l * colour m n))
        (List.finRange 8))
      (List.range nSites)

/-! ## Smearing operator (Lattice::computeSmearingOperator) -/

/-- The triplet list for the spatial hopping matrix H assembled by
Lattice::computeSmearingOperator.  The inner loop over the 8 neighbours
executes `break` (not continue) as soon as it meets a neighbour whose
dimension code is temporal (0 or 4), so only the prefix of the neighbour
list before the first temporal entry contributes - modelled by takeWhile.
The spin block is fixed to Matrix4cd::Identity() and the value is
spin(k,l) * colour(m,n), unweighted. -/
def smearingHTriplets (L : DiracLattice) : List Triplet :=
  joinMap (fun i =>
    joinMap (fun j : Fin 8 =>
      let columnIndex := (L.cols i j).1
      let dimen := (L.cols i j).2
      let colour : Mat3 :=
        if dimen > 3 then L.link i (dimen - 4)
        else adjoint3 (L.link (L.backSite i dimen) dimen)
      tensorTriplets (12 * i) (3 * columnIndex)
        (fun k l m n => mat4Id k l * colour m n))
      ((List.finRange 8).takeWhile
        (fun j => !((L.cols i j).2 == 0 || (L.cols i j).2 == 4))))
    (List.range L.nSites)

/-- The specification's description of the hopping matrix H: a
contribution - with spin block fixed to the identity - from each of the 6
purely spatial neighbour links of every site (every neighbour whose
dimension code is not temporal), and from no temporal link; written with
a filter where the code has its early-exit takeWhile. -/
def smearingHTripletsClaim (L : DiracLattice) : List Triplet :=
  joinMap (fun i =>
    joinMap (fun j : Fin 8 =>
      let columnIndex := (L.cols i j).1
      let dimen := (L.cols i j).2
      let colour : Mat3 :=
        if dimen > 3 then L.link i (dimen - 4)
        else adjoint3 (L.link (L.backSite i dimen) dimen)
      tensorTriplets (12 * i) (3 * columnIndex)
        (fun k l m n => mat4Id k l * colour m n))
      ((List.finRange 8).filter
        (fun j => !((L.cols i j).2 == 0 || (L.cols i j).2 == 4))))
    (List.range L.nSites)

/-- Lattice::computeSmearingOperator: builds the hopping matrix H from its
triplets only when nSmears > 0 (otherwise H stays the zero matrix), then
accumulates out = sum over i of pow(smearingParameter, i) * H^i, where
the running power starts at the identity and is multiplied by H after
each term.  The C++ loop `for (int i = 0; i <= nSmears; ++i)` on an int
runs nSmears + 1 times when nSmears >= 0 and not at all when
nSmears < 0. -/
def computeSmearingOperatorMat (L : DiracLattice) (smearingParameter : ℚ)
    (nSmears : ℤ) : cMat (12 * L.nSites) :=
  let N := 12 * L.nSites
  let matrixH : cMat N :=
    if 0 < nSmears then matFromTriplets N (smearingHTriplets L) else matZeroN N
  let iters : ℕ := if 0 ≤ nSmears then nSmears.toNat + 1 else 0
  let res := (List.range iters).foldl
    (fun (acc : cMat N × cMat N) i =>
      (matAddN N acc.1 (matSmulRat N (smearingParameter ^ i) acc.2),
       matMulN N acc.2 matrixH))
    (matZeroN N, matOneN N)
  res.1

/-- A concrete one-site lattice model: every link is the identity matrix,
and the neighbour table lists the 8 neighbours in dimension-code order
0, 1, 2, 3, 4, 5, 6, 7 (backward temporal link first), all neighbour
column indices 0 (the single site).  Instantiates the external lattice
indexer contract on the smallest possible geometry. -/
def oneSiteLattice : DiracLattice where
  nSites := 1
  cols := fun _ j => (0, j.val)
  link := fun _ _ => mat3Id
  backSite := fun _ _ => 0

/-! ## Propagator orchestration (Lattice::computePropagator) -/

/-- The outer overload of Lattice::computePropagator, which owns the gauge
field mutation: if nSmears > 0 it saves the links (templinks = links_),
smears every time slice in place, builds the Dirac matrix from the
(possibly smeared) field, restores links_ = templinks when it smeared,
and hands the Dirac matrix to the inner overload.  The state threading of
the mutable gauge field links_ is explicit: the function returns the pair
(inner result, final links_).  The smearing mutation smearLinksAt (the
external Lattice::smearLinks, applied once per time slice) and the inner
computation are parameters, so the theorem covers every possible smearing
behaviour. -/
def outerComputePropagator {G D R : Type} (temporalExtent : ℕ)
    (smearLinksAt : ℕ → G → G) (computeDiracFrom : G → D) (inner : D → R)
    (nSmears : ℤ) (links : G) : R × G :=
  let templinks := links
  let smeared :=
    if 0 < nSmears then
      (List.range temporalExtent).foldl (fun g time => smearLinksAt time g) links
    else links
  let dmat := computeDiracFrom smeared
  let restored := if 0 < nSmears then templinks else smeared
  (inner dmat, restored)

/-- The solver dispatch of the inner Lattice::computePropagator: when
solverMethod == 1 it assembles Dadj (the conjugate transpose of D,
triplet by triplet), hands M = D * Dadj to Eigen's ConjugateGradient and
recovers the solution as Dadj * solver.solve(source); for every other
solverMethod value the else branch hands D directly to Eigen's BiCGSTAB.
The two Eigen solvers are external collaborators, passed as the functions
`cgSolve` and `biSolve`; the dispatch is a total function of
solverMethod, so no value raises an error. -/
def propagatorSolveOne (N : ℕ) (D : cMat N)
    (cgSolve biSolve : cMat N → (Fin N → CQ) → (Fin N → CQ))
    (source : Fin N → CQ) (solverMethod : ℤ) : Fin N → CQ :=
  if solverMethod = 1 then
    matVecN N (matAdjointN N D) (cgSolve (matMulN N D (matAdjointN N D)) source)
  else
    biSolve D source

/-! ## BiCGSTAB (bicgstab in solvers.cpp)

The convergence quantities are carried squared: the state field
`residual` is the double `residual` of the C++ (already a squared norm);
the reported tolerance out-parameter sqrt(residual / r0Norm) is modelled
by the squared ratio residual / r0Norm, and the convergence comparison
sqrt(residual / r0Norm) < tolerance by residual / r0Norm < tolSq with
tolSq the squared tolerance (equivalent for a nonnegative tolerance since
sqrt is strictly monotone). -/

/-- The per-iteration mutable state of bicgstab. -/
structure BState where
  solution : List CQ
  r : List CQ
  p : List CQ
  v : List CQ
  s : List CQ
  t : List CQ
  rho : CQ
  alpha : CQ
  omega : CQ
  residual : ℚ

/-- One full body of the bicgstab loop (lines after the breakdown check):
rho = r0.dot(r); beta = (rho/rhoOld)*(alpha/omega); p, v, alpha, s, t,
omega, solution updates; then residual = r.squaredNorm() computed from
the r that entered the iteration, and only afterwards r = s - omega*t. -/
def bicgstabIter (A : List CQ → List CQ) (r0 : List CQ) (st : BState) : BState :=
  let rhoNew := cdot r0 st.r
  let beta := (rhoNew / st.rho) * (st.alpha / st.omega)
  let p := vadd st.r (vsmul beta (vsub st.p (vsmul st.omega st.v)))
  let v := A p
  let alpha := rhoNew / cdot r0 v
  let s := vsub st.r (vsmul alpha v)
  let t := A s
  let omega := cdot t s / CQ.ofRat (vecNormSq t)
  let solution := vadd st.solution (vadd (vsmul alpha p) (vsmul omega s))
  let residual := vecNormSq st.r
  let r := vsub s (vsmul omega t)
  ⟨solution, r, p, v, s, t, rhoNew, alpha, omega, residual⟩

/-- The bicgstab iteration loop.  Output: (solution, the value left in the
in-out maxIterations parameter, the squared relative residual left in the
in-out tolerance parameter).  On breakdown (rho exactly zero, tested as
abs(rho) == 0.0 in the C++) the loop breaks with maxIterations = i; on
convergence it breaks with maxIterations = i + 1; on exhaustion
maxIterations keeps its original value mOrig. -/
def bicgstabGo (A : List CQ → List CQ) (r0 : List CQ) (r0NormSq tolSq : ℚ)
    (mOrig : ℤ) : ℕ → ℕ → BState → List CQ × ℤ × ℚ
  | 0, _, st => (st.solution, mOrig, st.residual / r0NormSq)
  | fuel + 1, i, st =>
    if cdot r0 st.r = 0 then
      (st.solution, (i : ℤ), st.residual / r0NormSq)
    else
      let st2 := bicgstabIter A r0 st
      if st2.residual / r0NormSq < tolSq then
        (st2.solution, (i : ℤ) + 1, st2.residual / r0NormSq)
      else
        bicgstabGo A r0 r0NormSq tolSq mOrig fuel (i + 1) st2

/-- bicgstab(linop, rhs, tolerance, maxIterations, time): initialises
solution = 0, r = rhs - linop->apply(solution), r0 = r, the squared norms
r0Norm and residual, rho = alpha = omega = 1 and p = v = s = t = 0, then
runs the loop for at most maxIterations iterations. -/
def bicgstabModel (A : List CQ → List CQ) (rhs : List CQ) (tolSq : ℚ)
    (maxIterations : ℤ) : List CQ × ℤ × ℚ :=
  let solution := zeroVec rhs.length
  let r := vsub rhs (A solution)
  let r0 := r
  let r0NormSq := vecNormSq r0
  let residual := vecNormSq r
  let st : BState :=
    ⟨solution, r, zeroVec rhs.length, zeroVec rhs.length, zeroVec rhs.length,
     zeroVec rhs.length, 1, 1, 1, residual⟩
  bicgstabGo A r0 r0NormSq tolSq maxIterations maxIterations.toNat 0 st

/-! ## Arnoldi process (arnoldi in solvers.cpp)

The basis V is modelled as the list of its columns built so far; H as the
list of its built columns (column i - 1 holding the Gram-Schmidt
coefficients H(0..i-1, i-1) followed by the subdiagonal norm H(i, i-1)).
The embedding additionally returns, per step, the norm H(i, i-1) that
V.col(i) = q / H(i, i-1) divides by, so that statements about those
divisions are direct.  Norms need a real square root; the embedding is
parametrised by the square-root function `sq` (exact on the inputs used
by the theorems below, in particular sq 0 = 0 as in IEEE). -/

/-- One Gram-Schmidt elimination inside the arnoldi j-loop:
H(j, i-1) = q.dot(V.col(j)); q -= H(j, i-1) * V.col(j).  The accumulator
carries the running q and the H coefficients produced so far. -/
def gsStep (acc : List CQ × List CQ) (vj : List CQ) : List CQ × List CQ :=
  let h := cdot acc.1 vj
  (vsub acc.1 (vsmul h vj), acc.2 ++ [h])

/-- The arnoldi i-loop, one recursion step per basis-extension iteration:
q = linop->apply(last column); Gram-Schmidt against all previous columns;
H(i, i-1) = q.norm(); V.col(i) = q / H(i, i-1) - unconditionally, with no
test on the norm.  Returns (all V columns, H columns, the list of norms
divided by, one per step). -/
def arnoldiGo (A : List CQ → List CQ) (sq : ℚ → ℚ) :
    ℕ → List (List CQ) → List (List CQ) × List (List CQ) × List ℚ
  | 0, colsV => (colsV, [], [])
  | n + 1, colsV =>
    let q0 := A (colsV.getLastD [])
    let qh := colsV.foldl gsStep (q0, [])
    let nrm := sq (vecNormSq qh.1)
    let vnew := (qh.1).map (fun z => z / CQ.ofRat nrm)
    let rest := arnoldiGo A sq n (colsV ++ [vnew])
    (rest.1, (qh.2 ++ [CQ.ofRat nrm]) :: rest.2.1, nrm :: rest.2.2)

/-- arnoldi(V, H, linop, rhs, numIterations): beta = rhs.norm();
V.col(0) = rhs / beta; then numIterations basis-extension steps. -/
def arnoldiModel (A : List CQ → List CQ) (rhs : List CQ) (numIterations : ℕ)
    (sq : ℚ → ℚ) : List (List CQ) × List (List CQ) × List ℚ :=
  let beta := sq (vecNormSq rhs)
  arnoldiGo A sq numIterations [rhs.map (fun z => z / CQ.ofRat beta)]

/-! ## Expression-template array arithmetic (array_expr.hpp / the Array
class) -/

/-- The assertion-style failures of the array layer. -/
inductive ArrayErr where
  | outOfRange (msg : String)
  | badCast
deriving DecidableEq

/-- Modelled from the spec: the pyQCDassert macro (utils/macros.hpp is
absent from the sources; spec section 7 says dimension mismatches are
"reported immediately (assertion-style failure)").  A failed assertion
raises the supplied exception, modelled as an Except.error result; the
ArrayBinary constructor checks equal sizes first (out_of_range) and equal
layouts second (bad_cast) before the elementwise operation is available. -/
def arrayBinaryMk {α β γ : Type} (op : α → β → γ) (lhs : List α) (rhs : List β)
    (lhsLayout rhsLayout : Option ℕ) : Except ArrayErr (List γ) :=
  if lhs.length ≠ rhs.length then
    .error (.outOfRange "ArrayBinary: lhs.size() != rhs.size()")
  else if lhsLayout ≠ rhsLayout then
    .error .badCast
  else
    .ok (List.zipWith op lhs rhs)

/-- Array::operator op= (the array-operand overload): asserts
rhs.size() == data_.size() and otherwise raises
out_of_range("Arrays must be the same size"); on success applies op
elementwise in place. -/
def arrayOpAssign {α β : Type} (op : α → β → α) (dat : List α) (rhs : List β) :
    Except ArrayErr (List α) :=
  if rhs.length = dat.length then
    .ok (List.zipWith op dat rhs)
  else
    .error (.outOfRange "Arrays must be the same size")

/-! ## Concrete fixtures used by the witnesses and counterexamples -/

/-- The complex number 1. -/
def cqOne : CQ := ⟨1, 0⟩

/-- The complex number 0. -/
def cqZero : CQ := ⟨0, 0⟩

/-- A bicgstab state entering an iteration with r orthogonal to r0
(indeed r = 0), exercising the breakdown branch. -/
def breakdownState : BState :=
  ⟨[cqZero], [cqZero], [cqZero], [cqZero], [cqZero], [cqZero], 1, 1, 1, 0⟩

/-- A bicgstab state entering an iteration that converges: a 1-dimensional
system with the identity operator, r = r0 = [1]. -/
def convergingState : BState :=
  ⟨[cqZero], [cqOne], [cqZero], [cqZero], [cqZero], [cqZero], 1, 1, 1, 1⟩

/-- An exact square root on the rationals used by the concrete Arnoldi
runs: correct on the perfect squares 0 and 1 that those runs produce
(sq 0 = 0 exactly, as for IEEE sqrt). -/
def sqUnit (x : ℚ) : ℚ := if x = 1 then 1 else 0

/-- The zero operator on 1-dimensional complex vectors. -/
def zeroOp : List CQ → List CQ := fun _ => [cqZero]

/-- A concrete 1x1 matrix for the dispatch witness. -/
def oneMat1 : cMat 1 := fun _ _ => cqOne

/-- A concrete solver stand-in returning the source unchanged. -/
def idSolver : cMat 1 → (Fin 1 → CQ) → (Fin 1 → CQ) := fun _ v => v

/-- A concrete source vector for the dispatch witness. -/
def oneSrc : Fin 1 → CQ := fun _ => cqOne

/-- The neighbour-site map of the one-site lattice: every neighbour is the
site itself. -/
def oneSiteNbr : ℕ → Fin 8 → ℕ := fun _ _ => 0

/-- The direction map matching oneSiteLattice's dimension codes. -/
def oneSiteDir : ℕ → Fin 8 → ℕ := fun _ j => if j.val > 3 then j.val - 4 else j.val

/-- The orientation map matching oneSiteLattice's dimension codes. -/
def oneSiteFwd : ℕ → Fin 8 → Bool := fun _ j => j.val > 3

/-- A gamma-matrix assignment for the concrete witness (the statements are
generic in the gamma constants; the zero matrices are the simplest
instance). -/
def zeroGammas : ℕ → Mat4 := fun _ _ _ => cqZero

/-! ## Helper lemmas -/

/-- Real component of a complex literal. -/
@[simp] theorem cq_mk_re (a b : ℚ) : (CQ.mk a b).re = a := rfl

/-- Imaginary component of a complex literal. -/
@[simp] theorem cq_mk_im (a b : ℚ) : (CQ.mk a b).im = b := rfl

/-- Structural form of complex addition. -/
@[simp] theorem cq_add_def (a b : CQ) : a + b = ⟨a.re + b.re, a.im + b.im⟩ := rfl

/-- Structural form of complex subtraction. -/
@[simp] theorem cq_sub_def (a b : CQ) : a - b = ⟨a.re - b.re, a.im - b.im⟩ := rfl

/-- Structural form of complex multiplication. -/
@[simp] theorem cq_mul_def (a b : CQ) :
    a * b = ⟨a.re * b.re - a.im * b.im, a.re * b.im + a.im * b.re⟩ := rfl

/-- Structural form of complex division. -/
@[simp] theorem cq_div_def (a b : CQ) :
    a / b = ⟨(a.re * b.re + a.im * b.im) / (b.re * b.re + b.im * b.im),
             (a.im * b.re - a.re * b.im) / (b.re * b.re + b.im * b.im)⟩ := rfl

/-- Structural form of complex conjugation. -/
@[simp] theorem cq_conj_def (a : CQ) : CQ.conj a = ⟨a.re, -a.im⟩ := rfl

/-- Structural form of the squared modulus. -/
@[simp] theorem cq_normSq_def (a : CQ) : CQ.normSq a = a.re * a.re + a.im * a.im := rfl

/-- Structural form of the real embedding. -/
@[simp] theorem cq_ofRat_def (q : ℚ) : CQ.ofRat q = ⟨q, 0⟩ := rfl

/-- Components of the complex zero. -/
@[simp] theorem cq_zero_re : (0 : CQ).re = 0 := rfl

/-- Imaginary component of the complex zero. -/
@[simp] theorem cq_zero_im : (0 : CQ).im = 0 := rfl

/-- Components of the complex one. -/
@[simp] theorem cq_one_re : (1 : CQ).re = 1 := rfl

/-- Imaginary component of the complex one. -/
@[simp] theorem cq_one_im : (1 : CQ).im = 0 := rfl

/-- Equality of complex scalars componentwise. -/
@[simp] theorem cq_ext_iff (a b : CQ) : a = b ↔ (a.re = b.re ∧ a.im = b.im) := by
  constructor
  · intro h; rw [h]; exact ⟨rfl, rfl⟩
  · intro h
    cases a; cases b
    simp only [cq_mk_re, cq_mk_im] at h
    rw [h.1, h.2]

/-- The fixture cqZero, structurally. -/
@[simp] theorem cqZero_def : cqZero = ⟨0, 0⟩ := rfl

/-- The fixture cqOne, structurally. -/
@[simp] theorem cqOne_def : cqOne = ⟨1, 0⟩ := rfl

/-- The breakdown branch of the bicgstab loop: entered with the inner
product of r0 and r exactly zero, the loop returns at once. -/
theorem bicgstabGo_zero_rho (A : List CQ → List CQ) (r0 : List CQ)
    (r0NormSq tolSq : ℚ) (mOrig : ℤ) (fuel i : ℕ) (st : BState)
    (hrho : cdot r0 st.r = 0) :
    bicgstabGo A r0 r0NormSq tolSq mOrig (fuel + 1) i st
      = (st.solution, (i : ℤ), st.residual / r0NormSq) := by
  simp only [bicgstabGo]
  rw [if_pos hrho]

/-- Congruence for joinMap: pointwise equal bodies give equal loop
output. -/
theorem joinMap_congr {α β : Type} {f g : α → List β} {l : List α}
    (h : ∀ a ∈ l, f a = g a) : joinMap f l = joinMap g l := by
  unfold joinMap
  rw [List.map_congr_left h]

/-- Membership in a joinMap: produced by some iteration of the loop. -/
theorem mem_joinMap {α β : Type} {f : α → List β} {l : List α} {b : β} :
    b ∈ joinMap f l ↔ ∃ a, a ∈ l ∧ b ∈ f a := by
  unfold joinMap
  simp [List.mem_flatten]

/-- Multiplying by the complex unit is the identity. -/
theorem cq_one_mul (z : CQ) : (1 : CQ) * z = z := by
  cases z with
  | mk a b =>
    show CQ.mk (1 * a - 0 * b) (1 * b + 0 * a) = CQ.mk a b
    norm_num

/-- The C++ scalar -0.5 / spacing equals the specification's
-(1/(2*spacing)), for every spacing (including 0, where both sides
vanish by the division-by-zero convention). -/
theorem neg_half_div (s : ℚ) : (-0.5 : ℚ) / s = -(1 / (2 * s)) := by
  rw [div_eq_mul_inv, one_div, mul_inv, neg_mul]
  norm_num

/-- Length bookkeeping for the arnoldi loop: every call performs exactly
`n` basis-extension steps, appending one basis column and recording one
divisor per step, with no early exit. -/
theorem arnoldiGo_len (A : List CQ → List CQ) (sq : ℚ → ℚ) :
    ∀ (n : ℕ) (colsV : List (List CQ)),
      (arnoldiGo A sq n colsV).1.length = colsV.length + n ∧
      (arnoldiGo A sq n colsV).2.2.length = n := by
  intro n
  induction n with
  | zero => intro colsV; simp [arnoldiGo]
  | succ k ih =>
    intro colsV
    simp only [arnoldiGo]
    refine ⟨?_, ?_⟩
    · rw [(ih _).1, List.length_append]
      simp
      omega
    · simp [(ih _).2]

/-! ## Claim theorems -/

/-- C3: for every call to the outer computePropagator overload (the one
taking nSmears and smearingParameter) the gauge-field links after the
call equal their pre-call values exactly, for every smearing mutation,
Dirac-matrix builder, inner computation, nSmears (positive or not) and
initial links: the function saves templinks = links_ before smearing and
restores links_ = templinks afterwards, and does not touch the links when
nSmears <= 0. -/
theorem outer_propagator_restores_links {G D R : Type} (temporalExtent : ℕ)
    (smearLinksAt : ℕ → G → G) (computeDiracFrom : G → D) (inner : D → R)
    (nSmears : ℤ) (links : G) :
    (outerComputePropagator temporalExtent smearLinksAt computeDiracFrom inner
        nSmears links).2 = links := by
  unfold outerComputePropagator
  by_cases h : 0 < nSmears <;> simp [h]

/-- C7: the inner computePropagator solves with CG on the normal-equations
matrix D * Dadj, recovering the solution as Dadj applied to the CG
result, exactly when solverMethod = 1, and for every other integer value
(including all out-of-range ones) it falls back to BiCGSTAB applied
directly to D; the dispatch is a total function, so no value raises an
error. -/
theorem solver_method_dispatch (N : ℕ) (D : cMat N)
    (cgSolve biSolve : cMat N → (Fin N → CQ) → (Fin N → CQ))
    (source : Fin N → CQ) (solverMethod : ℤ) :
    (solverMethod = 1 →
      propagatorSolveOne N D cgSolve biSolve source solverMethod
        = matVecN N (matAdjointN N D)
            (cgSolve (matMulN N D (matAdjointN N D)) source)) ∧
    (solverMethod ≠ 1 →
      propagatorSolveOne N D cgSolve biSolve source solverMethod
        = biSolve D source) := by
  constructor <;> intro h <;> simp [propagatorSolveOne, h]

/-- Witness for C7: the out-of-range solver method -3 takes the BiCGSTAB
branch on a concrete 1x1 system. -/
theorem solver_method_dispatch_witness :
    ((-3 : ℤ) ≠ 1) ∧
    propagatorSolveOne 1 oneMat1 idSolver idSolver oneSrc (-3)
      = idSolver oneMat1 oneSrc :=
  ⟨by decide,
   (solver_method_dispatch 1 oneMat1 idSolver idSolver oneSrc (-3)).2 (by decide)⟩

/-- C9: a binary array expression over operands of different sizes, and a
compound assignment between two arrays of different sizes, both fail
immediately with the out_of_range assertion failure instead of producing
a numeric result. -/
theorem array_size_mismatch_fails {α β γ : Type} (op1 : α → β → γ)
    (op2 : α → β → α) (a : List α) (b : List β) (l1 l2 : Option ℕ)
    (h : a.length ≠ b.length) :
    arrayBinaryMk op1 a b l1 l2
      = .error (.outOfRange "ArrayBinary: lhs.size() != rhs.size()") ∧
    arrayOpAssign op2 a b
      = .error (.outOfRange "Arrays must be the same size") := by
  constructor
  · unfold arrayBinaryMk
    rw [if_pos h]
  · unfold arrayOpAssign
    rw [if_neg (Ne.symm h)]

/-- Witness for C9: adding a length-1 array to a length-0 array fails with
out_of_range through both entry points. -/
theorem array_size_mismatch_fails_witness :
    ([1].length ≠ ([] : List ℕ).length) ∧
    (arrayBinaryMk (· + ·) [1] ([] : List ℕ) none none
        = .error (.outOfRange "ArrayBinary: lhs.size() != rhs.size()") ∧
     arrayOpAssign (· + ·) [1] ([] : List ℕ)
        = .error (.outOfRange "Arrays must be the same size")) :=
  ⟨by decide, array_size_mismatch_fails (· + ·) (· + ·) [1] [] none none (by decide)⟩

/-- Counterexample for C4: a bicgstab run that hits the rho = 0 breakdown
in its very first iteration (identity operator, zero right-hand side)
leaves the iteration-count out-parameter at the non-negative value 0, not
at a negative sentinel as the claim states. -/
theorem bicgstab_breakdown_not_negative :
    (bicgstabModel (fun v => v) [cqZero] (1 / 100) 10).2.1 = 0 ∧
    ¬ (bicgstabModel (fun v => v) [cqZero] (1 / 100) 10).2.1 < 0 := by
  have key : (bicgstabModel (fun v => v) [cqZero] (1 / 100) 10).2.1 = ((0 : ℕ) : ℤ) := by
    unfold bicgstabModel
    simp only []
    rw [show ((10 : ℤ).toNat) = 9 + 1 from rfl]
    rw [bicgstabGo_zero_rho]
    norm_num [cdot, vsub, zeroVec, CQ.conj]
  refine ⟨key, ?_⟩
  rw [key]
  decide

/-- C4 (amended): if the inner product rho of the shadow residual r0 with
the current residual r is exactly zero at the start of an iteration, the
loop terminates immediately - the solution is left untouched and the
division by rho is never reached - and reports the breakdown by setting
the iteration-count out-parameter to the index i of the breakdown
iteration, a non-negative value (not a negative sentinel). -/
theorem bicgstab_breakdown_reported (A : List CQ → List CQ) (r0 : List CQ)
    (r0NormSq tolSq : ℚ) (mOrig : ℤ) (fuel i : ℕ) (st : BState)
    (hrho : cdot r0 st.r = 0) :
    bicgstabGo A r0 r0NormSq tolSq mOrig (fuel + 1) i st
      = (st.solution, (i : ℤ), st.residual / r0NormSq) ∧ (0 : ℤ) ≤ (i : ℤ) := by
  constructor
  · simp only [bicgstabGo]
    rw [if_pos hrho]
  · exact Int.natCast_nonneg i

/-- Witness for C4: the breakdown branch taken on a concrete state with
r = 0 orthogonal to r0 = [1]. -/
theorem bicgstab_breakdown_reported_witness :
    cdot [cqOne] breakdownState.r = 0 ∧
    (bicgstabGo (fun v => v) [cqOne] 1 (1 / 100) 5 1 0 breakdownState
        = (breakdownState.solution, ((0 : ℕ) : ℤ), breakdownState.residual / 1) ∧
     (0 : ℤ) ≤ ((0 : ℕ) : ℤ)) :=
  ⟨by norm_num [cdot, breakdownState],
   bicgstab_breakdown_reported (fun v => v) [cqOne] 1 (1 / 100) 5 0 0
     breakdownState (by norm_num [cdot, breakdownState])⟩

/-- C10: in an iteration of bicgstab that passes the breakdown check, the
squared residual norm stored in the variable tested for convergence (and
reported as the final relative residual when that test exits the loop) is
computed from the residual vector r as it stood at the start of the
iteration - before r is overwritten by r = s - omega * t - so on a
converging iteration the loop returns the freshly updated solution
together with a residual that lags it by one update. -/
theorem bicgstab_residual_lags (A : List CQ → List CQ) (r0 : List CQ)
    (r0NormSq tolSq : ℚ) (mOrig : ℤ) (fuel i : ℕ) (st : BState)
    (hrho : cdot r0 st.r ≠ 0)
    (hconv : vecNormSq st.r / r0NormSq < tolSq) :
    (bicgstabIter A r0 st).residual = vecNormSq st.r ∧
    bicgstabGo A r0 r0NormSq tolSq mOrig (fuel + 1) i st
      = ((bicgstabIter A r0 st).solution, (i : ℤ) + 1,
         vecNormSq st.r / r0NormSq) := by
  have hres : (bicgstabIter A r0 st).residual = vecNormSq st.r := rfl
  refine ⟨hres, ?_⟩
  have h2 : (bicgstabIter A r0 st).residual / r0NormSq < tolSq := by
    rw [hres]; exact hconv
  simp only [bicgstabGo]
  rw [if_neg hrho, if_pos h2, hres]

/-- Witness for C10: a concrete 1-dimensional converging iteration
(identity operator, r = r0 = [1]). -/
theorem bicgstab_residual_lags_witness :
    (cdot [cqOne] convergingState.r ≠ 0) ∧
    (vecNormSq convergingState.r / 1 < 2) ∧
    ((bicgstabIter (fun v => v) [cqOne] convergingState).residual
        = vecNormSq convergingState.r ∧
     bicgstabGo (fun v => v) [cqOne] 1 2 7 1 0 convergingState
        = ((bicgstabIter (fun v => v) [cqOne] convergingState).solution,
           ((0 : ℕ) : ℤ) + 1, vecNormSq convergingState.r / 1)) :=
  ⟨by norm_num [cdot, convergingState], by norm_num [vecNormSq, convergingState],
   bicgstab_residual_lags (fun v => v) [cqOne] 1 2 7 0 0 convergingState
     (by norm_num [cdot, convergingState]) (by norm_num [vecNormSq, convergingState])⟩

/-- C1: for every gauge field, gamma constants, mass and spacing,
computeDiracMatrix assembles exactly the triplet list the specification
describes: a diagonal entry mass + 4/spacing for each of the 12 * nSites
degrees of freedom and, for each site and each of its 8 neighbour links,
the entries -(1/(2*spacing)) * spin(k,l) * colour(m,n) at row
12*site + 3*k + m, column 12*neighbour + 3*l + n, with spin block
I + gamma_d and colour block the link at the site for a forward
neighbour, spin block I - gamma_d and colour block the adjoint of the
link at the neighbour site for a backward one, zero-valued entries
omitted.  The hypotheses pin down the external lattice indexer contract:
the table stores the neighbour's link index 4 * neighbour and a dimension
code dir + 4 (forward) or dir (backward) with dir <= 3, and for a
backward neighbour the decremented-coordinate site is that neighbour. -/
theorem computeDiracMatrix_matches_claim (L : DiracLattice) (gam : ℕ → Mat4)
    (mass spacing : ℚ) (nbr dir : ℕ → Fin 8 → ℕ) (fwd : ℕ → Fin 8 → Bool)
    (hcol : ∀ i, i < L.nSites → ∀ j, (L.cols i j).1 = 4 * nbr i j)
    (hdim : ∀ i, i < L.nSites → ∀ j,
      (L.cols i j).2 = (if fwd i j then dir i j + 4 else dir i j))
    (hdir : ∀ i, i < L.nSites → ∀ j, dir i j ≤ 3)
    (hback : ∀ i, i < L.nSites → ∀ j, fwd i j = false →
      L.backSite i (dir i j) = nbr i j) :
    computeDiracTriplets L gam mass spacing
      = diracTripletsClaim L.nSites L.link gam mass spacing nbr dir fwd := by
  unfold computeDiracTriplets diracTripletsClaim
  congr 1
  apply joinMap_congr
  intro i hi
  rw [List.mem_range] at hi
  apply joinMap_congr
  intro j hj
  simp only []
  cases hf : fwd i j with
  | true =>
    have hcols : L.cols i j = (4 * nbr i j, dir i j + 4) := by
      refine Prod.ext (hcol i hi j) ?_
      rw [hdim i hi j, hf]
      simp
    have ht : 3 < dir i j + 4 := by omega
    simp only [hcols, if_pos ht, Nat.add_sub_cancel, neg_half_div,
      show 3 * (4 * nbr i j) = 12 * nbr i j from by ring, if_true]
  | false =>
    have hcols : L.cols i j = (4 * nbr i j, dir i j) := by
      refine Prod.ext (hcol i hi j) ?_
      rw [hdim i hi j, hf]
      simp
    have ht : ¬ 3 < dir i j := by
      have := hdir i hi j
      omega
    simp only [hcols, if_neg ht, hback i hi j hf, neg_half_div,
      show 3 * (4 * nbr i j) = 12 * nbr i j from by ring, Bool.false_eq_true,
      if_false]

/-- Witness for C1: the indexer-contract hypotheses hold on the concrete
one-site lattice and the triplet-list equality follows there. -/
theorem computeDiracMatrix_matches_claim_witness :
    ((∀ i, i < oneSiteLattice.nSites → ∀ j,
        (oneSiteLattice.cols i j).1 = 4 * oneSiteNbr i j) ∧
     (∀ i, i < oneSiteLattice.nSites → ∀ j,
        (oneSiteLattice.cols i j).2
          = (if oneSiteFwd i j then oneSiteDir i j + 4 else oneSiteDir i j)) ∧
     (∀ i, i < oneSiteLattice.nSites → ∀ j, oneSiteDir i j ≤ 3) ∧
     (∀ i, i < oneSiteLattice.nSites → ∀ j, oneSiteFwd i j = false →
        oneSiteLattice.backSite i (oneSiteDir i j) = oneSiteNbr i j)) ∧
    computeDiracTriplets oneSiteLattice zeroGammas 1 1
      = diracTripletsClaim oneSiteLattice.nSites oneSiteLattice.link zeroGammas
          1 1 oneSiteNbr oneSiteDir oneSiteFwd :=
  ⟨⟨fun _ _ _ => rfl,
    fun _ _ j => by fin_cases j <;> rfl,
    fun _ _ j => by fin_cases j <;> norm_num [oneSiteDir],
    fun _ _ _ _ => rfl⟩,
   computeDiracMatrix_matches_claim oneSiteLattice zeroGammas 1 1 oneSiteNbr
     oneSiteDir oneSiteFwd (fun _ _ _ => rfl)
     (fun _ _ j => by fin_cases j <;> rfl)
     (fun _ _ j => by fin_cases j <;> norm_num [oneSiteDir])
     (fun _ _ _ _ => rfl)⟩

/-- C2 (code evaluated at the failing input): on the one-site lattice whose
neighbour table lists the backward temporal link (dimension code 0)
first, the `break` in Lattice::computeSmearingOperator exits the
neighbour loop immediately, so the assembled hopping matrix H receives no
entries at all - while the specification's H (the one the claim and the
loop's own "skip if the dimension is time" comment describe) contains the
spatial-link contribution (row 0, column 0, value 1) among its 6 spatial
neighbour blocks. -/
theorem smearing_break_drops_spatial_links :
    smearingHTriplets oneSiteLattice = [] ∧
    ((0, 0, (1 : CQ)) : Triplet) ∈ smearingHTripletsClaim oneSiteLattice := by
  constructor
  · rfl
  · unfold smearingHTripletsClaim
    rw [mem_joinMap]
    refine ⟨0, by simp [oneSiteLattice], ?_⟩
    rw [mem_joinMap]
    refine ⟨(1 : Fin 8), by decide, ?_⟩
    simp only []
    unfold tensorTriplets
    rw [mem_joinMap]
    refine ⟨(0 : Fin 4), by simp [List.mem_finRange], ?_⟩
    rw [mem_joinMap]
    refine ⟨(0 : Fin 3), by simp [List.mem_finRange], ?_⟩
    rw [mem_joinMap]
    refine ⟨(0 : Fin 4), by simp [List.mem_finRange], ?_⟩
    rw [mem_joinMap]
    refine ⟨(0 : Fin 3), by simp [List.mem_finRange], ?_⟩
    have hval : mat4Id (0 : Fin 4) (0 : Fin 4)
        * adjoint3 (oneSiteLattice.link (oneSiteLattice.backSite 0 1) 1)
            (0 : Fin 3) (0 : Fin 3) = 1 := by
      norm_num [mat4Id, adjoint3, oneSiteLattice, mat3Id]
    norm_num [oneSiteLattice, hval, mat4Id, adjoint3, mat3Id]

/-- C8: for every gauge field (lattice model) and every smearing parameter,
computeSmearingOperator with nSmears = 0 returns exactly the identity
operator on the 12 * nSites degrees of freedom: the hopping matrix is
never built, the series loop runs once and adds alpha^0 times the
identity power. -/
theorem smearing_zero_is_identity (L : DiracLattice) (alpha : ℚ) :
    computeSmearingOperatorMat L alpha 0 = matOneN (12 * L.nSites) := by
  unfold computeSmearingOperatorMat
  simp only [lt_self_iff_false, if_false, le_refl, if_true, Int.toNat_zero,
    Nat.zero_add, show List.range 1 = [0] from rfl, List.foldl_cons,
    List.foldl_nil]
  funext r c
  by_cases h : r = c <;>
    simp [matAddN, matZeroN, matSmulRat, matOneN, pow_zero, h]

/-- C5 (amended): the arnoldi process never truncates the basis: for every
operator, starting vector and iteration count it performs all
numIterations orthogonalisation-normalisation steps, producing exactly
numIterations + 1 basis columns and dividing by the computed norm once
per step, with no test on that norm (even when it is zero). -/
theorem arnoldi_never_truncates (A : List CQ → List CQ) (rhs : List CQ)
    (numIterations : ℕ) (sq : ℚ → ℚ) :
    (arnoldiModel A rhs numIterations sq).1.length = numIterations + 1 ∧
    (arnoldiModel A rhs numIterations sq).2.2.length = numIterations := by
  unfold arnoldiModel
  have h := arnoldiGo_len A sq numIterations
    [rhs.map (fun z => z / CQ.ofRat (sq (vecNormSq rhs)))]
  constructor
  · rw [h.1]
    simp [Nat.add_comm]
  · exact h.2

/-- Counterexample for C5: with the zero operator on a 1-dimensional space
the orthogonalised candidate vector has norm exactly zero after
Gram-Schmidt, yet the iteration does not stop: the division by the zero
norm is performed (the recorded divisor list is [0]) and a second basis
column is still produced, contradicting the claimed truncation. -/
theorem arnoldi_divides_by_zero_norm :
    (arnoldiModel zeroOp [cqOne] 1 sqUnit).2.2 = [0] ∧
    (arnoldiModel zeroOp [cqOne] 1 sqUnit).1.length = 2 := by
  have hv0 : [cqOne].map (fun z => z / CQ.ofRat (sqUnit (vecNormSq [cqOne]))) = [cqOne] := by
    norm_num [vecNormSq, sqUnit]
  constructor
  · unfold arnoldiModel
    simp only []
    rw [hv0, show (1 : ℕ) = 0 + 1 from rfl]
    simp only [arnoldiGo]
    norm_num [gsStep, cdot, vsub, vsmul, zeroOp, vecNormSq, sqUnit, List.getLastD]
  · unfold arnoldiModel
    simp only []
    rw [(arnoldiGo_len zeroOp sqUnit 1 _).1]
    simp
